import Mathlib

/-!
Verification of the Heston moment-matching approximation engine
(`pyfeng/heston.py`): variance transition moments (`var_mv`), average-variance
moments (`avgvar_mv`, Ball & Roma 1994 Appendix B), the variance-swap fair
strike (`varswap`, Bernard & Cui 2014 Eq. (11)), and the second-order
Ball-Roma option-price approximation (`HestonUncorrBallRoma1994.price`).
Floating-point arithmetic is modelled over the real numbers.
-/

namespace PyfengHeston

/-- Modelled from the spec: the model-parameter record of the
stochastic-volatility base class (`sv.SvABC`), which is outside this
repository snapshot.  Field names and meanings follow spec section 3. -/
structure SvParams where
  sigma : ℝ
  theta : ℝ
  vov : ℝ
  rho : ℝ
  mr : ℝ
  intr : ℝ
  divr : ℝ

/-- `HestonABC.var_mv(var0, dt)`: mean and variance of the variance at `t+dt`
given `V(0) = var0`. -/
noncomputable def var_mv (p : SvParams) (var0 dt : ℝ) : ℝ × ℝ :=
  let expo := Real.exp (-(p.mr * dt))
  let m := p.theta + (var0 - p.theta) * expo
  let s2 := var0 * expo + p.theta * (1 - expo) / 2
  (m, s2 * (p.vov ^ 2 * (1 - expo) / p.mr))

/-- The Python default-argument line `var0 = var0 or self.sigma` in
`HestonABC.avgvar_mv`: both `None` and a falsy (zero) `var0` are replaced by
`self.sigma`. -/
noncomputable def resolveVar0 (p : SvParams) : Option ℝ → ℝ
  | none => p.sigma
  | some v => if v = 0 then p.sigma else v

/-- `HestonABC.avgvar_mv(texp, var0=None)`: mean and variance of the average
variance given `V(0) = var0` (Ball & Roma 1994, Appendix B). -/
noncomputable def avgvar_mv (p : SvParams) (texp : ℝ) (var0opt : Option ℝ) : ℝ × ℝ :=
  let var0 := resolveVar0 p var0opt
  let mr_t := p.mr * texp
  let e_mr_t := Real.exp (-mr_t)
  let x0 := var0 - p.theta
  let mean := p.theta + x0 * (1 - e_mr_t) / mr_t
  let var := p.theta - 2 * x0 * e_mr_t
      + (1 - e_mr_t) * (var0 - 2.5 * p.theta + (var0 - p.theta / 2) * e_mr_t) / mr_t
  (mean, var * ((p.vov / mr_t) ^ 2 * texp))

/-- `HestonABC.varswap(texp, n_per_yr)`: analytic fair strike of a variance
swap (Bernard & Cui 2014, Eq. (11)); `none` means continuous monitoring. -/
noncomputable def varswap (p : SvParams) (texp : ℝ) : Option ℝ → ℝ
  | none =>
      let var0 := p.sigma
      let mr_t := p.mr * texp
      let e_mr_t := Real.exp (-mr_t)
      let x0 := var0 - p.theta
      p.theta + x0 * (1 - e_mr_t) / mr_t
  | some n =>
      let var0 := p.sigma
      let mr_t := p.mr * texp
      let e_mr_t := Real.exp (-mr_t)
      let x0 := var0 - p.theta
      let strike := p.theta + x0 * (1 - e_mr_t) / mr_t
      let mr_a := p.mr / n
      let e_mr_a := Real.exp (-mr_a)
      let tmp1 := p.theta - 2 * p.intr
      let s1 := strike + tmp1 / (4 * n) * (tmp1 + 2 * x0 * (1 - e_mr_t) / mr_t)
      let tmp2 := p.vov / p.mr
      let s2 := s1 + p.theta * tmp2 * (tmp2 / 4 - p.rho) * (1 - (1 - e_mr_a) / mr_a)
      let s3 := s2 + x0 * tmp2 * (tmp2 / 2 - p.rho) * (1 - e_mr_t) / mr_t
          * (1 + mr_a / (1 - 1 / e_mr_a))
      s3 + (tmp2 ^ 2 * (p.theta - 2 * var0) + 2 * x0 ^ 2 / p.mr)
          * (1 - e_mr_t ^ 2) / (8 * mr_t) * (1 - e_mr_a) / (1 + e_mr_a)

/-- Modelled from the spec: capability interface of the external
Black-Scholes-type pricing primitive (`bsm.Bsm`, outside this repository
snapshot), per spec section 6: a base price and the second derivative of the
price with respect to variance (`d2_var`). -/
structure BsmPricer where
  price : ℝ → ℝ → ℝ → ℝ → ℝ
  d2_var : ℝ → ℝ → ℝ → ℝ → ℝ

/-- Result of `HestonUncorrBallRoma1994.price`: either a price or the
`ValueError` raised for an unsupported approximation order (the payload
records that order, which the raised message interpolates). -/
inductive PriceResult where
  | ok (v : ℝ)
  | valueError (order : ℝ)

/-- `HestonUncorrBallRoma1994.price(strike, spot, texp, cp)`, parameterized by
the external `bsm.Bsm` constructor (effective vol, intr, divr to a pricer) and
the instance attribute `order` (the class sets `order = 2`).  The first
component records whether the non-fatal correlation warning was printed;
`np.isclose(rho, 0.0)` with numpy defaults is `abs rho <= 1e-8`. -/
noncomputable def price (mkBsm : ℝ → ℝ → ℝ → BsmPricer) (order : ℝ) (p : SvParams)
    (strike spot texp cp : ℝ) : Bool × PriceResult :=
  let warned := if |p.rho| ≤ 1e-8 then false else true
  let mv := avgvar_mv p texp none
  let m_bs := mkBsm (Real.sqrt mv.1) p.intr p.divr
  let price0 := m_bs.price strike spot texp cp
  if order = 2 then
    (warned, PriceResult.ok (price0 + 0.5 * mv.2 * m_bs.d2_var strike spot texp cp))
  else if 2 < order then (warned, PriceResult.valueError order)
  else (warned, PriceResult.ok price0)

/-- A trivial concrete Black-Scholes-type pricer used to instantiate the
capability interface in concrete evaluations. -/
def constBsm : ℝ → ℝ → ℝ → BsmPricer :=
  fun _ _ _ => ⟨fun _ _ _ _ => 1, fun _ _ _ _ => 1⟩

/-- A concrete positive parameter set used in concrete evaluations. -/
def pEx : SvParams := ⟨1, 1, 1, 0, 1, 0, 0⟩

/-- Like `pEx` but with nonzero correlation `rho = 0.5`. -/
def pRho : SvParams := ⟨1, 1, 1, 0.5, 1, 0, 0⟩

/-- A concrete parameter set with `theta = 0`, `sigma = 1`. -/
def pCtr : SvParams := ⟨1, 0, 0, 0, 1, 0, 0⟩

/-- Degree-2 Taylor lower bound for the exponential on nonnegative inputs. -/
lemma exp_quadratic_le (a : ℝ) (ha : 0 ≤ a) : 1 + a + a ^ 2 / 2 ≤ Real.exp a := by
  have h := Real.sum_le_exp_of_nonneg ha 3
  rw [Finset.sum_range_succ, Finset.sum_range_succ, Finset.sum_range_one] at h
  norm_num [Nat.factorial] at h
  linarith

/-- Degree-3 Taylor lower bound for the exponential on nonnegative inputs. -/
lemma exp_cubic_le (a : ℝ) (ha : 0 ≤ a) : 1 + a + a ^ 2 / 2 + a ^ 3 / 6 ≤ Real.exp a := by
  have h := Real.sum_le_exp_of_nonneg ha 4
  rw [Finset.sum_range_succ, Finset.sum_range_succ, Finset.sum_range_succ,
    Finset.sum_range_one] at h
  norm_num [Nat.factorial] at h
  linarith

/-- Quadratic upper bound for `exp (-a)` on nonnegative inputs. -/
lemma exp_neg_le_quadratic (a : ℝ) (ha : 0 ≤ a) : Real.exp (-a) ≤ 1 - a + a ^ 2 / 2 := by
  have hq := exp_quadratic_le a ha
  have hpos : (0 : ℝ) < Real.exp a := Real.exp_pos a
  have h0 : 0 ≤ 1 - a + a ^ 2 / 2 := by nlinarith [sq_nonneg (a - 1)]
  have h1 : 0 ≤ (1 - a + a ^ 2 / 2) * (Real.exp a - (1 + a + a ^ 2 / 2)) :=
    mul_nonneg h0 (by linarith)
  rw [Real.exp_neg, inv_eq_one_div, div_le_iff₀ hpos]
  nlinarith [sq_nonneg (a ^ 2)]

/-- The hyperbolic-sine inequality `2a ≤ exp a - exp (-a)` for `a ≥ 0`. -/
lemma two_mul_le_exp_sub (a : ℝ) (ha : 0 ≤ a) : 2 * a ≤ Real.exp a - Real.exp (-a) := by
  have h1 := exp_cubic_le a ha
  have h2 := exp_neg_le_quadratic a ha
  have h3 : 0 ≤ a ^ 3 := pow_nonneg ha 3
  linarith

/-- For `a ≥ 0`, `2·a·exp(-a) ≤ 1 - exp(-a)²`; this is the sign of the
`var0` coefficient in the average-variance variance. -/
lemma exp_neg_sq_bound (a : ℝ) (ha : 0 ≤ a) :
    2 * a * Real.exp (-a) ≤ 1 - Real.exp (-a) ^ 2 := by
  have h := two_mul_le_exp_sub a ha
  have hprod : Real.exp a * Real.exp (-a) = 1 := by
    rw [← Real.exp_add]; simp
  have hpos : (0 : ℝ) < Real.exp (-a) := Real.exp_pos _
  nlinarith [mul_le_mul_of_nonneg_right h hpos.le]

/-- Twice `a` times the `theta` coefficient of the average-variance variance:
`2a(1+2e) - (1-e)(5+e)` with `e = exp(-a)`, expanded. -/
noncomputable def phiAux (a : ℝ) : ℝ :=
  2 * a + 4 * a * Real.exp (-a) + 4 * Real.exp (-a) + Real.exp (-a) ^ 2 - 5

/-- Derivative of `phiAux`. -/
lemma phiAux_hasDerivAt (a : ℝ) :
    HasDerivAt phiAux (2 - 4 * a * Real.exp (-a) - 2 * Real.exp (-a) ^ 2) a := by
  have hneg : HasDerivAt (fun x : ℝ => -x) (-1 : ℝ) a := (hasDerivAt_id a).neg
  have he := hneg.exp
  have h1 : HasDerivAt (fun x : ℝ => 2 * x) ((2 : ℝ) * 1) a := (hasDerivAt_id a).const_mul 2
  have h4x : HasDerivAt (fun x : ℝ => 4 * x) ((4 : ℝ) * 1) a := (hasDerivAt_id a).const_mul 4
  have h2 := h4x.mul he
  have h3 := he.const_mul (4 : ℝ)
  have h4 := he.pow 2
  have h5 := (((h1.add h2).add h3).add h4).sub_const 5
  have h6 : HasDerivAt
      (fun x : ℝ => 2 * x + 4 * x * Real.exp (-x) + 4 * Real.exp (-x) + Real.exp (-x) ^ 2 - 5)
      (2 - 4 * a * Real.exp (-a) - 2 * Real.exp (-a) ^ 2) a := by
    convert h5 using 1
    simp only [pow_one, Nat.cast_ofNat]
    ring
  exact h6

/-- `phiAux` is nonnegative on `[0, ∞)`: it vanishes at `0` and its derivative
is nonnegative there by `exp_neg_sq_bound`. -/
lemma phiAux_nonneg (a : ℝ) (ha : 0 ≤ a) : 0 ≤ phiAux a := by
  have hmono : MonotoneOn phiAux (Set.Ici (0 : ℝ)) := by
    apply monotoneOn_of_deriv_nonneg (convex_Ici 0)
    · exact fun x _ => (phiAux_hasDerivAt x).differentiableAt.continuousAt.continuousWithinAt
    · exact fun x _ => (phiAux_hasDerivAt x).differentiableAt.differentiableWithinAt
    · intro x hx
      rw [(phiAux_hasDerivAt x).deriv]
      rw [interior_Ici, Set.mem_Ioi] at hx
      have := exp_neg_sq_bound x hx.le
      linarith
  have h0 : phiAux 0 = 0 := by norm_num [phiAux]
  have hle := hmono Set.left_mem_Ici (Set.mem_Ici.mpr ha) ha
  linarith

/-- C1: with discrete monitoring, `varswap` equals the continuous-monitoring
base strike `theta + x0·(1-e)/a` plus exactly the four additive correction
terms (drift/rate, vol-of-vol/correlation, cross, convexity) of
Bernard & Cui (2014) Eq. (11). -/
theorem varswap_discrete_formula (p : SvParams) (texp n : ℝ)
    (hmr : 0 < p.mr) (ht : 0 < texp) (hn : 0 < n) :
    varswap p texp (some n) =
      (p.theta + (p.sigma - p.theta) * (1 - Real.exp (-(p.mr * texp))) / (p.mr * texp))
      + (p.theta - 2 * p.intr) / (4 * n)
          * ((p.theta - 2 * p.intr)
            + 2 * (p.sigma - p.theta) * (1 - Real.exp (-(p.mr * texp))) / (p.mr * texp))
      + p.theta * (p.vov / p.mr) * ((p.vov / p.mr) / 4 - p.rho)
          * (1 - (1 - Real.exp (-(p.mr / n))) / (p.mr / n))
      + (p.sigma - p.theta) * (p.vov / p.mr) * ((p.vov / p.mr) / 2 - p.rho)
          * (1 - Real.exp (-(p.mr * texp))) / (p.mr * texp)
          * (1 + (p.mr / n) / (1 - 1 / Real.exp (-(p.mr / n))))
      + ((p.vov / p.mr) ^ 2 * (p.theta - 2 * p.sigma) + 2 * (p.sigma - p.theta) ^ 2 / p.mr)
          * (1 - Real.exp (-(p.mr * texp)) ^ 2) / (8 * (p.mr * texp))
          * (1 - Real.exp (-(p.mr / n))) / (1 + Real.exp (-(p.mr / n))) := by
  simp only [varswap]

/-- Witness for C1 at `pEx`, `texp = 1`, `n_per_yr = 4`. -/
theorem varswap_discrete_formula_witness :
    (0 : ℝ) < pEx.mr ∧ (0 : ℝ) < (1 : ℝ) ∧ (0 : ℝ) < (4 : ℝ) ∧
    varswap pEx 1 (some 4) =
      (pEx.theta + (pEx.sigma - pEx.theta) * (1 - Real.exp (-(pEx.mr * 1))) / (pEx.mr * 1))
      + (pEx.theta - 2 * pEx.intr) / (4 * 4)
          * ((pEx.theta - 2 * pEx.intr)
            + 2 * (pEx.sigma - pEx.theta) * (1 - Real.exp (-(pEx.mr * 1))) / (pEx.mr * 1))
      + pEx.theta * (pEx.vov / pEx.mr) * ((pEx.vov / pEx.mr) / 4 - pEx.rho)
          * (1 - (1 - Real.exp (-(pEx.mr / 4))) / (pEx.mr / 4))
      + (pEx.sigma - pEx.theta) * (pEx.vov / pEx.mr) * ((pEx.vov / pEx.mr) / 2 - pEx.rho)
          * (1 - Real.exp (-(pEx.mr * 1))) / (pEx.mr * 1)
          * (1 + (pEx.mr / 4) / (1 - 1 / Real.exp (-(pEx.mr / 4))))
      + ((pEx.vov / pEx.mr) ^ 2 * (pEx.theta - 2 * pEx.sigma)
            + 2 * (pEx.sigma - pEx.theta) ^ 2 / pEx.mr)
          * (1 - Real.exp (-(pEx.mr * 1)) ^ 2) / (8 * (pEx.mr * 1))
          * (1 - Real.exp (-(pEx.mr / 4))) / (1 + Real.exp (-(pEx.mr / 4))) :=
  ⟨by norm_num [pEx], by norm_num, by norm_num,
    varswap_discrete_formula pEx 1 4 (by norm_num [pEx]) (by norm_num) (by norm_num)⟩

/-- C2 counterexample: with `sigma = 1`, `theta = 0`, `mr = 1`, `texp = 1` and
the explicitly supplied `var0 = 0`, the claimed mean formula
`theta + (var0-theta)·(1-e)/a` evaluates to `0`, but `avgvar_mv` does not
return it: the falsy default replaces the supplied `0` by `sigma = 1`, giving
mean `1 - exp(-1) ≠ 0`. -/
theorem avgvar_mv_zero_var0_counterexample :
    (avgvar_mv pCtr 1 (some 0)).1 ≠
      (0 : ℝ) + ((0 : ℝ) - 0) * (1 - Real.exp (-((1 : ℝ) * 1))) / ((1 : ℝ) * 1) := by
  have h1 : Real.exp (-(1 : ℝ)) < 1 := Real.exp_lt_one_iff.mpr (by norm_num)
  simp [avgvar_mv, resolveVar0, pCtr]
  intro h
  linarith [h1, h]

/-- C2 (amended): for every supplied nonzero `var0` the mean is
`theta + x0·(1-e)/a` and the variance is `rawVar·(vov/a)²·texp` evaluated at
that `var0`; when `var0` is not supplied the same formulas hold with `sigma`
in its place. -/
theorem avgvar_mv_formula (p : SvParams) (texp v0 : ℝ)
    (hmr : 0 < p.mr) (ht : 0 < texp) (hv : v0 ≠ 0) :
    avgvar_mv p texp (some v0) =
      (p.theta + (v0 - p.theta) * (1 - Real.exp (-(p.mr * texp))) / (p.mr * texp),
        ((p.theta - 2 * (v0 - p.theta) * Real.exp (-(p.mr * texp)))
          + (1 - Real.exp (-(p.mr * texp)))
            * (v0 - 2.5 * p.theta + (v0 - p.theta / 2) * Real.exp (-(p.mr * texp)))
            / (p.mr * texp))
          * (p.vov / (p.mr * texp)) ^ 2 * texp)
    ∧ avgvar_mv p texp none =
      (p.theta + (p.sigma - p.theta) * (1 - Real.exp (-(p.mr * texp))) / (p.mr * texp),
        ((p.theta - 2 * (p.sigma - p.theta) * Real.exp (-(p.mr * texp)))
          + (1 - Real.exp (-(p.mr * texp)))
            * (p.sigma - 2.5 * p.theta + (p.sigma - p.theta / 2) * Real.exp (-(p.mr * texp)))
            / (p.mr * texp))
          * (p.vov / (p.mr * texp)) ^ 2 * texp) := by
  constructor <;>
  · simp only [avgvar_mv, resolveVar0, if_neg hv, Prod.mk.injEq]
    exact ⟨by ring, by ring⟩

/-- Witness for the amended C2 at `pEx`, `texp = 1`, `var0 = 2`. -/
theorem avgvar_mv_formula_witness :
    (0 : ℝ) < pEx.mr ∧ (0 : ℝ) < (1 : ℝ) ∧ (2 : ℝ) ≠ 0 ∧
    (avgvar_mv pEx 1 (some 2) =
      (pEx.theta + (2 - pEx.theta) * (1 - Real.exp (-(pEx.mr * 1))) / (pEx.mr * 1),
        ((pEx.theta - 2 * (2 - pEx.theta) * Real.exp (-(pEx.mr * 1)))
          + (1 - Real.exp (-(pEx.mr * 1)))
            * (2 - 2.5 * pEx.theta + (2 - pEx.theta / 2) * Real.exp (-(pEx.mr * 1)))
            / (pEx.mr * 1))
          * (pEx.vov / (pEx.mr * 1)) ^ 2 * 1)
    ∧ avgvar_mv pEx 1 none =
      (pEx.theta + (pEx.sigma - pEx.theta) * (1 - Real.exp (-(pEx.mr * 1))) / (pEx.mr * 1),
        ((pEx.theta - 2 * (pEx.sigma - pEx.theta) * Real.exp (-(pEx.mr * 1)))
          + (1 - Real.exp (-(pEx.mr * 1)))
            * (pEx.sigma - 2.5 * pEx.theta
              + (pEx.sigma - pEx.theta / 2) * Real.exp (-(pEx.mr * 1)))
            / (pEx.mr * 1))
          * (pEx.vov / (pEx.mr * 1)) ^ 2 * 1)) :=
  ⟨by norm_num [pEx], by norm_num, by norm_num,
    avgvar_mv_formula pEx 1 2 (by norm_num [pEx]) (by norm_num) (by norm_num)⟩

/-- C3: at approximation order 2, the returned price is the external
Black-Scholes-type pricer's base price (effective volatility
`sqrt(avgVarMean)`, the model's `intr`/`divr`) plus
`0.5·avgVarVar·d2_var(strike, spot, texp, cp)`, with the average-variance
moments taken at the model's current variance level. -/
theorem price_order2_formula (mkBsm : ℝ → ℝ → ℝ → BsmPricer) (p : SvParams)
    (strike spot texp cp : ℝ) (hmr : 0 < p.mr) (ht : 0 < texp) :
    (price mkBsm 2 p strike spot texp cp).2 =
      PriceResult.ok
        ((mkBsm (Real.sqrt (avgvar_mv p texp none).1) p.intr p.divr).price strike spot texp cp
          + 0.5 * (avgvar_mv p texp none).2
            * (mkBsm (Real.sqrt (avgvar_mv p texp none).1) p.intr p.divr).d2_var
                strike spot texp cp) := by
  simp [price]

/-- Witness for C3 at `constBsm`, `pEx`, unit inputs. -/
theorem price_order2_formula_witness :
    (0 : ℝ) < pEx.mr ∧ (0 : ℝ) < (1 : ℝ) ∧
    (price constBsm 2 pEx 1 1 1 1).2 =
      PriceResult.ok
        ((constBsm (Real.sqrt (avgvar_mv pEx 1 none).1) pEx.intr pEx.divr).price 1 1 1 1
          + 0.5 * (avgvar_mv pEx 1 none).2
            * (constBsm (Real.sqrt (avgvar_mv pEx 1 none).1) pEx.intr pEx.divr).d2_var
                1 1 1 1) :=
  ⟨by norm_num [pEx], by norm_num,
    price_order2_formula constBsm pEx 1 1 1 1 (by norm_num [pEx]) (by norm_num)⟩

/-- C4: with `n_per_yr` unspecified (continuous monitoring), `varswap` equals
exactly the mean component of `avgvar_mv` at the default `var0 = sigma`, with
no correction terms. -/
theorem varswap_continuous_eq_avgvar_mean (p : SvParams) (texp : ℝ)
    (hmr : 0 < p.mr) (ht : 0 < texp) :
    varswap p texp none = (avgvar_mv p texp none).1 := by
  simp only [varswap, avgvar_mv, resolveVar0]

/-- Witness for C4 at `pEx`, `texp = 1`. -/
theorem varswap_continuous_eq_avgvar_mean_witness :
    (0 : ℝ) < pEx.mr ∧ (0 : ℝ) < (1 : ℝ) ∧
    varswap pEx 1 none = (avgvar_mv pEx 1 none).1 :=
  ⟨by norm_num [pEx], by norm_num,
    varswap_continuous_eq_avgvar_mean pEx 1 (by norm_num [pEx]) (by norm_num)⟩

/-- C5: whenever the configured approximation order exceeds 2, `price` fails
with the unsupported-approximation-order `ValueError` and returns no price. -/
theorem price_unsupported_order (mkBsm : ℝ → ℝ → ℝ → BsmPricer) (order : ℝ) (p : SvParams)
    (strike spot texp cp : ℝ) (h : 2 < order) :
    (price mkBsm order p strike spot texp cp).2 = PriceResult.valueError order := by
  have h2 : ¬ order = 2 := by intro he; rw [he] at h; exact lt_irrefl 2 h
  simp [price, if_neg h2, if_pos h]

/-- Witness for C5 at order 3. -/
theorem price_unsupported_order_witness :
    (2 : ℝ) < 3 ∧ (price constBsm 3 pEx 1 1 1 1).2 = PriceResult.valueError 3 :=
  ⟨by norm_num, price_unsupported_order constBsm 3 pEx 1 1 1 1 (by norm_num)⟩

/-- C6: `var_mv` returns mean `theta + (var0-theta)·e` and variance
`(var0·e + theta·(1-e)/2)·vov²·(1-e)/mr` with `e = exp(-mr·dt)`. -/
theorem var_mv_formula (p : SvParams) (var0 dt : ℝ) (hmr : 0 < p.mr) (hdt : 0 ≤ dt) :
    var_mv p var0 dt =
      (p.theta + (var0 - p.theta) * Real.exp (-(p.mr * dt)),
        (var0 * Real.exp (-(p.mr * dt)) + p.theta * (1 - Real.exp (-(p.mr * dt))) / 2)
          * p.vov ^ 2 * (1 - Real.exp (-(p.mr * dt))) / p.mr) := by
  simp only [var_mv, Prod.mk.injEq]
  exact ⟨trivial, by ring⟩

/-- Witness for C6 at `pEx`, `var0 = 1`, `dt = 1`. -/
theorem var_mv_formula_witness :
    (0 : ℝ) < pEx.mr ∧ (0 : ℝ) ≤ (1 : ℝ) ∧
    var_mv pEx 1 1 =
      (pEx.theta + (1 - pEx.theta) * Real.exp (-(pEx.mr * 1)),
        (1 * Real.exp (-(pEx.mr * 1)) + pEx.theta * (1 - Real.exp (-(pEx.mr * 1))) / 2)
          * pEx.vov ^ 2 * (1 - Real.exp (-(pEx.mr * 1))) / pEx.mr) :=
  ⟨by norm_num [pEx], by norm_num,
    var_mv_formula pEx 1 1 (by norm_num [pEx]) (by norm_num)⟩

/-- C7: the variance component of `avgvar_mv` is nonnegative whenever
`mr, theta, vov, var0, texp` are all positive. -/
theorem avgvar_mv_var_nonneg (p : SvParams) (texp v0 : ℝ)
    (hmr : 0 < p.mr) (hth : 0 < p.theta) (hvov : 0 < p.vov) (hv0 : 0 < v0) (ht : 0 < texp) :
    0 ≤ (avgvar_mv p texp (some v0)).2 := by
  have hv0ne : v0 ≠ 0 := ne_of_gt hv0
  have ha : 0 < p.mr * texp := mul_pos hmr ht
  have hane : p.mr * texp ≠ 0 := ne_of_gt ha
  have hkey := exp_neg_sq_bound (p.mr * texp) ha.le
  have hphi := phiAux_nonneg (p.mr * texp) ha.le
  simp only [avgvar_mv, resolveVar0, if_neg hv0ne]
  have hid :
      (p.theta - 2 * (v0 - p.theta) * Real.exp (-(p.mr * texp))
        + (1 - Real.exp (-(p.mr * texp)))
          * (v0 - 2.5 * p.theta + (v0 - p.theta / 2) * Real.exp (-(p.mr * texp)))
          / (p.mr * texp)) * (2 * (p.mr * texp))
      = v0 * (2 * (1 - Real.exp (-(p.mr * texp)) ^ 2)
            - 4 * (p.mr * texp) * Real.exp (-(p.mr * texp)))
        + p.theta * phiAux (p.mr * texp) := by
    simp only [phiAux]
    field_simp
    ring
  have hc1 : 0 ≤ 2 * (1 - Real.exp (-(p.mr * texp)) ^ 2)
      - 4 * (p.mr * texp) * Real.exp (-(p.mr * texp)) := by linarith
  have hc2 := mul_nonneg hv0.le hc1
  have hc3 := mul_nonneg hth.le hphi
  have hinner : 0 ≤ p.theta - 2 * (v0 - p.theta) * Real.exp (-(p.mr * texp))
      + (1 - Real.exp (-(p.mr * texp)))
        * (v0 - 2.5 * p.theta + (v0 - p.theta / 2) * Real.exp (-(p.mr * texp)))
        / (p.mr * texp) := by
    nlinarith [hid, hc2, hc3, ha]
  exact mul_nonneg hinner (mul_nonneg (sq_nonneg _) ht.le)

/-- Witness for C7 at `pEx`, `texp = 1`, `var0 = 1`. -/
theorem avgvar_mv_var_nonneg_witness :
    (0 : ℝ) < pEx.mr ∧ (0 : ℝ) < pEx.theta ∧ (0 : ℝ) < pEx.vov ∧ (0 : ℝ) < (1 : ℝ) ∧
    0 ≤ (avgvar_mv pEx 1 (some 1)).2 :=
  ⟨by norm_num [pEx], by norm_num [pEx], by norm_num [pEx], by norm_num,
    avgvar_mv_var_nonneg pEx 1 1 (by norm_num [pEx]) (by norm_num [pEx])
      (by norm_num [pEx]) (by norm_num) (by norm_num)⟩

/-- C8: for two parameter sets identical except `rho` (both in `[-1, 1]`),
`price` (at the class's configured order 2) returns the same price result;
and when `rho` is not numerically indistinguishable from zero the warning flag
is set while the call still returns a price, not an error. -/
theorem price_rho_invariance (mkBsm : ℝ → ℝ → ℝ → BsmPricer) (p q : SvParams)
    (strike spot texp cp : ℝ)
    (hs : p.sigma = q.sigma) (hth : p.theta = q.theta) (hv : p.vov = q.vov)
    (hm : p.mr = q.mr) (hi : p.intr = q.intr) (hd : p.divr = q.divr)
    (hpr : -1 ≤ p.rho ∧ p.rho ≤ 1) (hqr : -1 ≤ q.rho ∧ q.rho ≤ 1) :
    (price mkBsm 2 p strike spot texp cp).2 = (price mkBsm 2 q strike spot texp cp).2
    ∧ (¬ |p.rho| ≤ 1e-8 →
        (price mkBsm 2 p strike spot texp cp).1 = true
        ∧ ∃ v, (price mkBsm 2 p strike spot texp cp).2 = PriceResult.ok v) := by
  constructor
  · simp [price, avgvar_mv, resolveVar0, hs, hth, hv, hm, hi, hd]
  · intro hw
    constructor
    · simp [price, if_neg hw]
    · exact ⟨(mkBsm (Real.sqrt (avgvar_mv p texp none).1) p.intr p.divr).price strike spot texp cp
        + 0.5 * (avgvar_mv p texp none).2
          * (mkBsm (Real.sqrt (avgvar_mv p texp none).1) p.intr p.divr).d2_var strike spot texp cp,
        by simp [price]⟩

/-- Witness for C8: `pRho` (rho = 0.5) against `pEx` (rho = 0). -/
theorem price_rho_invariance_witness :
    ¬ |pRho.rho| ≤ 1e-8 ∧
    ((price constBsm 2 pRho 1 1 1 1).1 = true
      ∧ ∃ v, (price constBsm 2 pRho 1 1 1 1).2 = PriceResult.ok v) :=
  ⟨by norm_num [pRho, abs_le],
    (price_rho_invariance constBsm pRho pEx 1 1 1 1 rfl rfl rfl rfl rfl rfl
      (by norm_num [pRho]) (by norm_num [pEx])).2 (by norm_num [pRho, abs_le])⟩

/-- C9: a supplied `var0 = 0` is falsy in the Python default
`var0 = var0 or self.sigma`, so `avgvar_mv` with an explicit `0` returns
exactly the result of omitting `var0`. -/
theorem avgvar_mv_zero_default (p : SvParams) (texp : ℝ) (hmr : 0 < p.mr) (ht : 0 < texp) :
    avgvar_mv p texp (some 0) = avgvar_mv p texp none := by
  simp [avgvar_mv, resolveVar0]

/-- Witness for C9 at `pEx`, `texp = 1`. -/
theorem avgvar_mv_zero_default_witness :
    (0 : ℝ) < pEx.mr ∧ (0 : ℝ) < (1 : ℝ) ∧
    avgvar_mv pEx 1 (some 0) = avgvar_mv pEx 1 none :=
  ⟨by norm_num [pEx], by norm_num,
    avgvar_mv_zero_default pEx 1 (by norm_num [pEx]) (by norm_num)⟩

/-- C10: `price` yields the unsupported-order error exactly when the order
exceeds 2; any order below 2 returns the uncorrected base price with no
validation error, and order exactly 2 adds the second-order correction. -/
theorem price_order_dichotomy (mkBsm : ℝ → ℝ → ℝ → BsmPricer) (order : ℝ) (p : SvParams)
    (strike spot texp cp : ℝ) :
    ((∃ o, (price mkBsm order p strike spot texp cp).2 = PriceResult.valueError o) ↔ 2 < order)
    ∧ (order < 2 →
        (price mkBsm order p strike spot texp cp).2 =
          PriceResult.ok
            ((mkBsm (Real.sqrt (avgvar_mv p texp none).1) p.intr p.divr).price
              strike spot texp cp))
    ∧ (order = 2 →
        (price mkBsm order p strike spot texp cp).2 =
          PriceResult.ok
            ((mkBsm (Real.sqrt (avgvar_mv p texp none).1) p.intr p.divr).price
                strike spot texp cp
              + 0.5 * (avgvar_mv p texp none).2
                * (mkBsm (Real.sqrt (avgvar_mv p texp none).1) p.intr p.divr).d2_var
                    strike spot texp cp)) := by
  rcases lt_trichotomy order 2 with hlt | heq | hgt
  · have h2 : ¬ order = 2 := ne_of_lt hlt
    have hg : ¬ 2 < order := not_lt_of_lt hlt
    refine ⟨?_, fun _ => ?_, fun he => absurd he h2⟩
    · simp [price, if_neg h2, if_neg hg]
      exact hlt.le
    · simp [price, if_neg h2, if_neg hg]
  · subst heq
    refine ⟨?_, fun hlt2 => absurd rfl (ne_of_lt hlt2), fun _ => ?_⟩
    · simp [price]
    · simp [price]
  · have h2 : ¬ order = 2 := by intro he; rw [he] at hgt; exact lt_irrefl 2 hgt
    refine ⟨?_, fun hlt2 => absurd hlt2 (not_lt_of_lt hgt), fun he => absurd he h2⟩
    simp [price, if_neg h2, if_pos hgt]
    exact hgt

/-- Witness for C10 at order 3: the error direction of the dichotomy. -/
theorem price_order_dichotomy_witness :
    (2 : ℝ) < 3 ∧
    (∃ o, (price constBsm 3 pEx 1 1 1 1).2 = PriceResult.valueError o) :=
  ⟨by norm_num, ((price_order_dichotomy constBsm 3 pEx 1 1 1 1).1).mpr (by norm_num)⟩

end PyfengHeston
